import Mathlib

/-
  Verification of the extraction/normalization pipeline of the pjn_lab1
  scraper (src/parse_utils.py and src/scraper.py).

  Strings are modelled as `List Char`; Python regular-expression searches
  are translated into structurally recursive scanning functions; numeric
  results (Python floats holding exactly-representable decimal values)
  are modelled as rationals; functions that can raise are modelled with
  `Option` where `none` marks a raised exception.
-/

/-- Converts a Lean string literal to the `List Char` representation used
throughout this development. -/
def strL (s : String) : List Char := s.data

/-- Python regex `\s` / `str.strip` whitespace, restricted to the whitespace
characters that can occur in the analysed documents: space, TAB, LF, VT, FF,
CR and NBSP (U+00A0). -/
def isWsC (c : Char) : Bool :=
  c = ' ' || c = Char.ofNat 9 || c = Char.ofNat 10 || c = Char.ofNat 13 ||
  c = Char.ofNat 11 || c = Char.ofNat 12 || c = Char.ofNat 160

/-- ASCII digit test (`\d` in the source regexes, which only ever face ASCII digits). -/
def isDigitC (c : Char) : Bool := decide (48 ≤ c.toNat) && decide (c.toNat ≤ 57)

def isUpperA (c : Char) : Bool := decide (65 ≤ c.toNat) && decide (c.toNat ≤ 90)

def isLowerA (c : Char) : Bool := decide (97 ≤ c.toNat) && decide (c.toNat ≤ 122)

/-- The Polish letters (upper/lower pairs) appearing in the scraper's tables. -/
def plPairs : List (Char × Char) :=
  [('Ą', 'ą'), ('Ć', 'ć'), ('Ę', 'ę'), ('Ł', 'ł'), ('Ń', 'ń'),
   ('Ó', 'ó'), ('Ś', 'ś'), ('Ź', 'ź'), ('Ż', 'ż')]

/-- Python `str.lower` on the character set occurring in the sources. -/
def toLowerC (c : Char) : Char :=
  if isUpperA c then Char.ofNat (c.toNat + 32)
  else
    match plPairs.find? (fun p => p.1 = c) with
    | some p => p.2
    | none => c

/-- Python `str.upper` on the character set occurring in the sources. -/
def toUpperC (c : Char) : Char :=
  if isLowerA c then Char.ofNat (c.toNat - 32)
  else
    match plPairs.find? (fun p => p.2 = c) with
    | some p => p.1
    | none => c

def isAlphaC (c : Char) : Bool :=
  isUpperA c || isLowerA c || plPairs.any (fun p => p.1 = c || p.2 = c)

def isAlnumC (c : Char) : Bool := isAlphaC c || isDigitC c

/-- Python regex `\w` on the character set occurring in the sources. -/
def isWordC (c : Char) : Bool := isAlnumC c || c = '_'

def lowerL (l : List Char) : List Char := l.map toLowerC

def upperL (l : List Char) : List Char := l.map toUpperC

/-- Python `str.strip()`: drop leading and trailing whitespace. -/
def trimWS (l : List Char) : List Char :=
  ((l.dropWhile isWsC).reverse.dropWhile isWsC).reverse

/-- Core of `re.sub(r"\s+", " ", s)`: every maximal whitespace run becomes a
single `' '` (a trailing run is dropped; a leading run becomes one leading
space, removed afterwards by the strip step of `normWS`). -/
def collapse : List Char → List Char
  | [] => []
  | c :: cs =>
    if isWsC c then
      match collapse cs with
      | [] => []
      | d :: ds => if d = ' ' then d :: ds else ' ' :: d :: ds
    else c :: collapse cs

/-- Body of `normalize_whitespace` (src/parse_utils.py:11-12) on a present string:
`re.sub(r"\s+", " ", s).strip()`. -/
def normWS (cs : List Char) : List Char := trimWS (collapse cs)

/-- Model of `normalize_whitespace(s)` (src/parse_utils.py:11-12): `s or ""` then
collapse whitespace runs and strip. -/
def normalize_whitespace (s : Option (List Char)) : List Char :=
  normWS (s.getD [])

-- ===== helper lemmas about collapse / normWS =====

/-- Absence of two adjacent plain spaces. -/
def noDbl : List Char → Prop
  | a :: b :: rest => ¬(a = ' ' ∧ b = ' ') ∧ noDbl (b :: rest)
  | _ => True

theorem noDbl_tail {a : Char} {l : List Char} (h : noDbl (a :: l)) : noDbl l := by
  cases l with
  | nil => trivial
  | cons b r => exact h.2

theorem noDbl_cons {c : Char} {l : List Char} (hc : c ≠ ' ') (h : noDbl l) :
    noDbl (c :: l) := by
  cases l with
  | nil => trivial
  | cons d r => exact ⟨fun hp => hc hp.1, h⟩

theorem collapse_cons_ws_nil {a : Char} {as : List Char} (h : isWsC a = true)
    (hcol : collapse as = []) : collapse (a :: as) = [] := by
  simp [collapse, h, hcol]

theorem collapse_cons_ws_cons {a d : Char} {as ds : List Char} (h : isWsC a = true)
    (hcol : collapse as = d :: ds) :
    collapse (a :: as) = if d = ' ' then d :: ds else ' ' :: d :: ds := by
  simp [collapse, h, hcol]

theorem collapse_cons_nws {a : Char} (as : List Char) (h : isWsC a = false) :
    collapse (a :: as) = a :: collapse as := by
  simp [collapse, h]

theorem collapse_ws_space : ∀ (cs : List Char) (c : Char),
    c ∈ collapse cs → isWsC c = true → c = ' ' := by
  intro cs
  induction cs with
  | nil => intro c h; simp [collapse] at h
  | cons a as ih =>
    intro c h hws
    by_cases ha : isWsC a = true
    · rcases hcol : collapse as with _ | ⟨d, ds⟩
      · rw [collapse_cons_ws_nil ha hcol] at h; simp at h
      · rw [collapse_cons_ws_cons ha hcol] at h
        by_cases hd : d = ' '
        · rw [if_pos hd] at h
          exact ih c (by rw [hcol]; exact h) hws
        · rw [if_neg hd] at h
          rcases List.mem_cons.mp h with h1 | h2
          · exact h1
          · exact ih c (by rw [hcol]; exact h2) hws
    · rw [collapse_cons_nws as (by simpa using ha)] at h
      rcases List.mem_cons.mp h with h1 | h2
      · subst h1; exact absurd hws (by simpa using ha)
      · exact ih c h2 hws

theorem collapse_last : ∀ (cs : List Char) (c : Char),
    (collapse cs).getLast? = some c → isWsC c = false := by
  intro cs
  induction cs with
  | nil => intro c h; simp [collapse] at h
  | cons a as ih =>
    intro c h
    by_cases ha : isWsC a = true
    · rcases hcol : collapse as with _ | ⟨d, ds⟩
      · rw [collapse_cons_ws_nil ha hcol] at h; simp at h
      · rw [collapse_cons_ws_cons ha hcol] at h
        by_cases hd : d = ' '
        · rw [if_pos hd] at h
          apply ih; rw [hcol]; exact h
        · rw [if_neg hd, List.getLast?_cons_cons] at h
          apply ih; rw [hcol]; exact h
    · rw [collapse_cons_nws as (by simpa using ha)] at h
      rcases hcol : collapse as with _ | ⟨d, ds⟩
      · rw [hcol] at h
        simp only [List.getLast?_singleton, Option.some.injEq] at h
        subst h; simpa using ha
      · rw [hcol, List.getLast?_cons_cons] at h
        apply ih; rw [hcol]; exact h

theorem collapse_noDbl : ∀ cs : List Char, noDbl (collapse cs) := by
  intro cs
  induction cs with
  | nil => trivial
  | cons a as ih =>
    by_cases ha : isWsC a = true
    · rcases hcol : collapse as with _ | ⟨d, ds⟩
      · rw [collapse_cons_ws_nil ha hcol]; trivial
      · rw [collapse_cons_ws_cons ha hcol]
        rw [hcol] at ih
        by_cases hd : d = ' '
        · simpa [hd] using ih
        · simp only [hd, ite_false]
          exact ⟨fun hp => hd hp.2, ih⟩
    · rw [collapse_cons_nws as (by simpa using ha)]
      refine noDbl_cons ?_ ih
      intro he; subst he; simp [isWsC] at ha

theorem collapse_id : ∀ l : List Char,
    (∀ c ∈ l, isWsC c = true → c = ' ') → noDbl l →
    (∀ c, l.getLast? = some c → isWsC c = false) → collapse l = l := by
  intro l
  induction l with
  | nil => intro _ _ _; rfl
  | cons a rest ih =>
    intro h1 h2 h3
    by_cases ha : isWsC a = true
    · have haSp : a = ' ' := h1 a (List.mem_cons_self a rest) ha
      rcases rest with _ | ⟨d, ds⟩
      · exfalso
        have := h3 a (by simp)
        rw [this] at ha; exact absurd ha (by simp)
      · have hd : d ≠ ' ' := by
          intro he; rw [haSp] at h2; exact (h2.1 ⟨rfl, he⟩)
        have hrest : collapse (d :: ds) = d :: ds := by
          apply ih
          · intro c hc hw; exact h1 c (List.mem_cons_of_mem a hc) hw
          · exact noDbl_tail h2
          · intro c hc
            apply h3
            rwa [List.getLast?_cons_cons]
        rw [collapse_cons_ws_cons ha hrest, if_neg hd, haSp]
    · have hrest : collapse rest = rest := by
        apply ih
        · intro c hc hw; exact h1 c (List.mem_cons_of_mem a hc) hw
        · exact noDbl_tail h2
        · intro c hc
          rcases rest with _ | ⟨d, ds⟩
          · simp at hc
          · apply h3; rwa [List.getLast?_cons_cons]
      rw [collapse_cons_nws rest (by simpa using ha), hrest]

theorem mem_dropWhile {p : Char → Bool} : ∀ {l : List Char} {c : Char},
    c ∈ l.dropWhile p → c ∈ l := by
  intro l
  induction l with
  | nil => intro c h; simp at h
  | cons a as ih =>
    intro c h
    by_cases ha : p a = true
    · rw [List.dropWhile_cons, if_pos ha] at h
      exact List.mem_cons_of_mem a (ih h)
    · rw [List.dropWhile_cons, if_neg (by simpa using ha)] at h
      exact h

theorem noDbl_dropWhile {p : Char → Bool} : ∀ {l : List Char},
    noDbl l → noDbl (l.dropWhile p) := by
  intro l
  induction l with
  | nil => intro h; simpa using h
  | cons a as ih =>
    intro h
    by_cases ha : p a = true
    · rw [List.dropWhile_cons, if_pos ha]
      exact ih (noDbl_tail h)
    · rwa [List.dropWhile_cons, if_neg (by simpa using ha)]

theorem getLast?_dropWhile {p : Char → Bool} : ∀ {l : List Char},
    l.dropWhile p ≠ [] → (l.dropWhile p).getLast? = l.getLast? := by
  intro l
  induction l with
  | nil => intro h; simp at h
  | cons a as ih =>
    intro h
    by_cases ha : p a = true
    · rw [List.dropWhile_cons, if_pos ha] at h ⊢
      have hne : as ≠ [] := by
        intro he; rw [he] at h; simp at h
      rcases as with _ | ⟨b, bs⟩
      · exact absurd rfl hne
      · rw [ih h, List.getLast?_cons_cons]
    · rw [List.dropWhile_cons, if_neg (by simpa using ha)]

theorem head?_dropWhile {p : Char → Bool} : ∀ {l : List Char} {c : Char},
    (l.dropWhile p).head? = some c → p c = false := by
  intro l
  induction l with
  | nil => intro c h; simp at h
  | cons a as ih =>
    intro c h
    by_cases ha : p a = true
    · rw [List.dropWhile_cons, if_pos ha] at h; exact ih h
    · rw [List.dropWhile_cons, if_neg (by simpa using ha)] at h
      simp only [List.head?_cons, Option.some.injEq] at h
      subst h; simpa using ha

theorem dropWhile_eq_self_of_head {p : Char → Bool} : ∀ {l : List Char},
    (∀ c, l.head? = some c → p c = false) → l.dropWhile p = l := by
  intro l h
  rcases l with _ | ⟨a, as⟩
  · rfl
  · have := h a (by simp)
    rw [List.dropWhile_cons, if_neg (by simp [this])]

/-- Fact: `normWS` is the leading-whitespace drop of the collapse (the strip step
removes nothing at the tail because `collapse` never leaves trailing
whitespace). -/
theorem normWS_eq_drop (s : List Char) :
    normWS s = (collapse s).dropWhile isWsC := by
  unfold normWS trimWS
  set m := (collapse s).dropWhile isWsC with hm
  have hrev : m.reverse.dropWhile isWsC = m.reverse := by
    apply dropWhile_eq_self_of_head
    intro c hc
    rw [List.head?_reverse] at hc
    have hm_ne : m ≠ [] := by
      intro he; rw [he] at hc; simp at hc
    rw [hm, getLast?_dropWhile (by rw [← hm]; exact hm_ne)] at hc
    exact collapse_last s c hc
  rw [hrev, List.reverse_reverse]

theorem normWS_head {s : List Char} {c : Char}
    (h : (normWS s).head? = some c) : isWsC c = false := by
  rw [normWS_eq_drop] at h
  exact head?_dropWhile h

theorem collapse_normWS (s : List Char) : collapse (normWS s) = normWS s := by
  rw [normWS_eq_drop]
  apply collapse_id
  · intro c hc hw
    exact collapse_ws_space s c (mem_dropWhile hc) hw
  · exact noDbl_dropWhile (collapse_noDbl s)
  · intro c hc
    have hne : (collapse s).dropWhile isWsC ≠ [] := by
      intro he; rw [he] at hc; simp at hc
    rw [getLast?_dropWhile hne] at hc
    exact collapse_last s c hc

/-- Shared helper: `normalize_whitespace` is idempotent. -/
theorem normWS_idem (s : List Char) : normWS (normWS s) = normWS s := by
  rw [normWS_eq_drop (normWS s), collapse_normWS]
  apply dropWhile_eq_self_of_head
  intro c hc
  exact normWS_head hc

/-- C9: the Text Normalizer is idempotent (`normalize(normalize(s)) =
normalize(s)` for every string `s`), absent input yields the empty string,
and the function is total (a Lean function, hence pure and never failing). -/
theorem c9_normalize_idempotent :
    (∀ s : List Char, normWS (normWS s) = normWS s) ∧
    normalize_whitespace none = [] := by
  constructor
  · exact normWS_idem
  · rfl

-- ===== Price Parser (src/parse_utils.py:14-36) =====

/-- Python `str.replace(pat, rep)` (leftmost, non-overlapping), driven by
explicit fuel so that the kernel can evaluate it; `strReplace` supplies
sufficient fuel. -/
def replaceSubF (pat rep : List Char) : ℕ → List Char → List Char
  | 0, l => l
  | _ + 1, [] => []
  | f + 1, c :: cs =>
    if pat.isPrefixOf (c :: cs) then rep ++ replaceSubF pat rep f ((c :: cs).drop pat.length)
    else c :: replaceSubF pat rep f cs

def strReplace (pat rep l : List Char) : List Char :=
  replaceSubF pat rep (l.length + 1) l

/-- Python `str.replace(a, b)` for single characters. -/
def replaceChar (a b : Char) (l : List Char) : List Char :=
  l.map (fun c => if c = a then b else c)

/-- Value of a digit run (`int` of the run). -/
def natVal (l : List Char) : ℕ :=
  l.foldl (fun a c => a * 10 + (c.toNat - 48)) 0

/-- Value of a string of the shape `digits`, `digits.digits`, `.digits` or
`digits.` as an exact rational (`intpart.fracpart` = (intpart·10^k + fracpart)/10^k). -/
def decVal (u : List Char) : ℚ :=
  let ip := u.takeWhile (fun c => c ≠ '.')
  let rest := u.dropWhile (fun c => c ≠ '.')
  match rest with
  | [] => mkRat (natVal ip) 1
  | _ :: fr => mkRat (natVal ip * 10 ^ fr.length + natVal fr) (10 ^ fr.length)

/-- Python `float(t)` restricted to the strings reaching it inside
`clean_price_pln` (digits, periods and residual whitespace): strips
whitespace, then requires a well-formed decimal literal; `none` models the
raised `ValueError`. -/
def tryFloat (t : List Char) : Option ℚ :=
  let u := trimWS t
  if u = [] then none
  else if ¬ (u.all (fun c => isDigitC c || c = '.')) then none
  else if u.count '.' > 1 then none
  else if ¬ (u.any isDigitC) then none
  else some (decVal u)

/-- Regex `(\d+(?:[.,]\d+)?)` (first match): first digit run, optionally
followed by a separator and another digit run. -/
def numTok : List Char → Option (List Char)
  | [] => none
  | c :: cs =>
    if isDigitC c then
      some
        (let run := (c :: cs).takeWhile isDigitC
         let rest := (c :: cs).dropWhile isDigitC
         match rest with
         | s :: r2 =>
           if s = '.' || s = ',' then
             match r2.takeWhile isDigitC with
             | [] => run
             | fr => run ++ s :: fr
           else run
         | [] => run)
    else numTok cs

/-- Decimal-separator disambiguation of `clean_price_pln`
(src/parse_utils.py:25-29): both separators → periods removed, comma becomes
the point; only comma → comma becomes the point; otherwise unchanged. -/
def decimalSep (t : List Char) : List Char :=
  if t.contains ',' && t.contains '.' then
    strReplace (strL ",") (strL ".") (strReplace (strL ".") [] t)
  else if t.contains ',' && !(t.contains '.') then
    strReplace (strL ",") (strL ".") t
  else t

/-- Model of `clean_price_pln` (src/parse_utils.py:14-36). Currency amounts are
modelled as exact rationals. -/
def clean_price_pln : Option (List Char) → Option ℚ
  | none => none
  | some text =>
    if text = [] then none
    else
      let t0 := lowerL text
      let t1 := strReplace (strL "pln") [] t0
      let t2 := strReplace (strL "zł") [] t1
      let t3 := t2.filter (fun c => isDigitC c || c = ',' || c = '.' || isWsC c)
      let t4 := (t3.filter (fun c => c ≠ ' ')).filter (fun c => c ≠ Char.ofNat 160)
      let t5 := decimalSep t4
      match tryFloat t5 with
      | some v => some v
      | none =>
        match numTok t5 with
        | some g => some (decVal (replaceChar ',' '.' g))
        | none => none

theorem strReplace_single_eq_map (b : Char) : ∀ l : List Char, ∀ f : ℕ,
    l.length < f → replaceSubF [','] [b] f l = l.map (fun c => if c = ',' then b else c) := by
  intro l
  induction l with
  | nil => intro f hf; cases f with
    | zero => simp at hf
    | succ n => rfl
  | cons a as ih =>
    intro f hf
    cases f with
    | zero => simp at hf
    | succ n =>
      have hn : as.length < n := by simpa [Nat.succ_lt_succ_iff] using hf
      by_cases ha : a = ','
      · subst ha
        have hpre : List.isPrefixOf [','] (',' :: as) = true := by
          simp [List.isPrefixOf]
        simp only [replaceSubF, hpre, if_pos, List.map_cons, if_pos rfl,
          List.length_cons, List.length_nil, List.drop_succ_cons, List.drop_zero]
        simpa using ih n hn
      · have hpre : List.isPrefixOf [','] (a :: as) = false := by
          simp only [List.isPrefixOf, List.isPrefixOf_nil_left, Bool.and_true, beq_eq_false_iff_ne,
            ne_eq]
          exact fun h => ha h.symm
        simp only [replaceSubF, hpre, Bool.false_eq_true, if_false, List.map_cons, if_neg ha]
        rw [ih n hn]

theorem strReplace_erase_eq_filter : ∀ l : List Char, ∀ f : ℕ,
    l.length < f → replaceSubF ['.'] [] f l = l.filter (fun c => c ≠ '.') := by
  intro l
  induction l with
  | nil => intro f hf; cases f with
    | zero => simp at hf
    | succ n => rfl
  | cons a as ih =>
    intro f hf
    cases f with
    | zero => simp at hf
    | succ n =>
      have hn : as.length < n := by simpa [Nat.succ_lt_succ_iff] using hf
      by_cases ha : a = '.'
      · subst ha
        have hpre : List.isPrefixOf ['.'] ('.' :: as) = true := by
          simp [List.isPrefixOf]
        simp only [replaceSubF, hpre, if_pos, List.nil_append,
          List.length_cons, List.length_nil, List.drop_succ_cons, List.drop_zero]
        rw [ih n hn]
        simp
      · have hpre : List.isPrefixOf ['.'] (a :: as) = false := by
          simp only [List.isPrefixOf, List.isPrefixOf_nil_left, Bool.and_true, beq_eq_false_iff_ne,
            ne_eq]
          exact fun h => ha h.symm
        simp only [replaceSubF, hpre, Bool.false_eq_true, if_false]
        rw [ih n hn]
        simp [List.filter_cons, ha]

/-- C5: the Price Parser maps `"3 499,00 zł"`, `"3499 zł"` and
`"3.499,00 PLN"` to `3499.0`, maps `"brak ceny"` to absent, and its
decimal-separator step follows the stated rule: with both separators present
the periods are removed and the comma becomes the decimal point, with only a
comma present the comma becomes the decimal point, and with no comma the text
is unchanged (in particular a period-only text is left as-is). -/
theorem c5_price_parsing :
    clean_price_pln (some (strL "3 499,00 zł")) = some (3499 : ℚ) ∧
    clean_price_pln (some (strL "3499 zł")) = some (3499 : ℚ) ∧
    clean_price_pln (some (strL "3.499,00 PLN")) = some (3499 : ℚ) ∧
    clean_price_pln (some (strL "brak ceny")) = none ∧
    (∀ t : List Char, t.contains ',' = true → t.contains '.' = true →
      decimalSep t = (t.filter (fun c => c ≠ '.')).map (fun c => if c = ',' then '.' else c)) ∧
    (∀ t : List Char, t.contains ',' = true → t.contains '.' = false →
      decimalSep t = t.map (fun c => if c = ',' then '.' else c)) ∧
    (∀ t : List Char, t.contains ',' = false → decimalSep t = t) := by
  refine ⟨by decide, by decide, by decide, by decide, ?_, ?_, ?_⟩
  · intro t hc hd
    unfold decimalSep
    rw [if_pos (show (t.contains ',' && t.contains '.') = true by rw [hc, hd]; rfl)]
    unfold strReplace
    rw [show (strL ".") = ['.'] from rfl, show (strL ",") = [','] from rfl]
    rw [strReplace_erase_eq_filter t (t.length + 1) (Nat.lt_succ_self _)]
    exact strReplace_single_eq_map '.' _ _ (Nat.lt_succ_self _)
  · intro t hc hd
    unfold decimalSep
    rw [if_neg (show ¬ ((t.contains ',' && t.contains '.') = true) by rw [hd]; simp),
      if_pos (show (t.contains ',' && !t.contains '.') = true by rw [hc, hd]; rfl)]
    unfold strReplace
    rw [show (strL ",") = [','] from rfl, show (strL ".") = ['.'] from rfl]
    exact strReplace_single_eq_map '.' t (t.length + 1) (Nat.lt_succ_self _)
  · intro t hc
    unfold decimalSep
    rw [if_neg (show ¬ ((t.contains ',' && t.contains '.') = true) by rw [hc]; simp),
      if_neg (show ¬ ((t.contains ',' && !t.contains '.') = true) by rw [hc]; simp)]

/-- Witness for C5: the separator-rule hypotheses are satisfiable; instantiated
at the concrete intermediate texts arising from the specified inputs. -/
theorem c5_price_parsing_witness :
    decimalSep (strL "3.499,00") =
      ((strL "3.499,00").filter (fun c => c ≠ '.')).map (fun c => if c = ',' then '.' else c) ∧
    decimalSep (strL "3499,00") = (strL "3499,00").map (fun c => if c = ',' then '.' else c) ∧
    decimalSep (strL "3499") = strL "3499" :=
  ⟨c5_price_parsing.2.2.2.2.1 (strL "3.499,00") (by decide) (by decide),
   c5_price_parsing.2.2.2.2.2.1 (strL "3499,00") (by decide) (by decide),
   c5_price_parsing.2.2.2.2.2.2 (strL "3499") (by decide)⟩

-- ===== Structured Spec-Table Extractor (src/parse_utils.py:163-218) =====

/-- The canonical field names targeted by `map_into_spec` and
`extract_specs_from_title`. -/
inductive F where
  | screen_size_inches
  | screen_resolution
  | panel_type
  | cpu
  | gpu
  | ram_gb
  | storage_type
  | storage_capacity_gb
  | os
  | color
  | keyboard_backlight
  | availability
  | rating
  | reviews_count
deriving DecidableEq

/-- The field map (`spec: Dict[str, str]`) built by the extractors: one
optional raw string value per canonical field. -/
structure Spec where
  screen_size_inches : Option (List Char) := none
  screen_resolution : Option (List Char) := none
  panel_type : Option (List Char) := none
  cpu : Option (List Char) := none
  gpu : Option (List Char) := none
  ram_gb : Option (List Char) := none
  storage_type : Option (List Char) := none
  storage_capacity_gb : Option (List Char) := none
  os : Option (List Char) := none
  color : Option (List Char) := none
  keyboard_backlight : Option (List Char) := none
  availability : Option (List Char) := none
  rating : Option (List Char) := none
  reviews_count : Option (List Char) := none
deriving DecidableEq

def emptySpec : Spec := {}

def getF (s : Spec) : F → Option (List Char)
  | .screen_size_inches => s.screen_size_inches
  | .screen_resolution => s.screen_resolution
  | .panel_type => s.panel_type
  | .cpu => s.cpu
  | .gpu => s.gpu
  | .ram_gb => s.ram_gb
  | .storage_type => s.storage_type
  | .storage_capacity_gb => s.storage_capacity_gb
  | .os => s.os
  | .color => s.color
  | .keyboard_backlight => s.keyboard_backlight
  | .availability => s.availability
  | .rating => s.rating
  | .reviews_count => s.reviews_count

/-- Assignment `spec[target] = val`: the unconditional dictionary write performed by
`map_into_spec` (src/parse_utils.py:217). -/
def setF (s : Spec) (f : F) (v : List Char) : Spec :=
  match f with
  | .screen_size_inches => { s with screen_size_inches := some v }
  | .screen_resolution => { s with screen_resolution := some v }
  | .panel_type => { s with panel_type := some v }
  | .cpu => { s with cpu := some v }
  | .gpu => { s with gpu := some v }
  | .ram_gb => { s with ram_gb := some v }
  | .storage_type => { s with storage_type := some v }
  | .storage_capacity_gb => { s with storage_capacity_gb := some v }
  | .os => { s with os := some v }
  | .color => { s with color := some v }
  | .keyboard_backlight => { s with keyboard_backlight := some v }
  | .availability => { s with availability := some v }
  | .rating => { s with rating := some v }
  | .reviews_count => { s with reviews_count := some v }

/-- Substring test (Python `needle in haystack`). -/
def containsSub (needle : List Char) : List Char → Bool
  | [] => needle.isEmpty
  | c :: cs => needle.isPrefixOf (c :: cs) || containsSub needle cs

/-- The ordered Field Synonym Table of `map_into_spec`
(src/parse_utils.py:199-214). -/
def mapping : List (List (List Char) × F) :=
  [([strL "przekątna ekranu", strL "przekatna ekranu", strL "przekątna", strL "przekatna"],
    F.screen_size_inches),
   ([strL "rozdzielczość", strL "rozdzielczosc", strL "rozdzielczość"], F.screen_resolution),
   ([strL "matryca", strL "typ matrycy", strL "rodzaj matrycy", strL "panel"], F.panel_type),
   ([strL "procesor", strL "cpu"], F.cpu),
   ([strL "karta graficzna", strL "gpu", strL "układ graficzny", strL "uklad graficzny"], F.gpu),
   ([strL "pamięć ram", strL "pamieć ram", strL "ram", strL "pamięć", strL "pamiec"], F.ram_gb),
   ([strL "dysk", strL "rodzaj dysku", strL "typ dysku", strL "nośnik danych",
     strL "nosnik danych"], F.storage_type),
   ([strL "pojemność dysku", strL "pojemnosc dysku", strL "pojemność nośnika",
     strL "pojemnosc nosnika"], F.storage_capacity_gb),
   ([strL "system operacyjny", strL "system"], F.os),
   ([strL "kolor", strL "color"], F.color),
   ([strL "podświetlenie klawiatury", strL "podswietlenie klawiatury", strL "backlight"],
    F.keyboard_backlight),
   ([strL "dostępność", strL "dostepnosc", strL "availability"], F.availability),
   ([strL "ocena", strL "średnia ocena", strL "srednia ocena", strL "rating"], F.rating),
   ([strL "liczba opinii", strL "opinie", strL "recenzje", strL "review count"], F.reviews_count)]

/-- First rule of the synonym table (in table order) one of whose candidate
labels is a substring of the lower-cased key; `map_into_spec` returns at the
first match. -/
def ruleFor (keyLower : List Char) : List (List (List Char) × F) → Option F
  | [] => none
  | (cands, f) :: rs =>
    if cands.any (fun k => containsSub k keyLower) then some f else ruleFor keyLower rs

/-- Model of `map_into_spec(spec, key_lower, val)` (src/parse_utils.py:198-218): the
first matching rule's canonical field receives the value unconditionally. -/
def map_into_spec (spec : Spec) (keyLower val : List Char) : Spec :=
  match ruleFor keyLower mapping with
  | some f => setF spec f val
  | none => spec

/-- Abstraction of the parsed BeautifulSoup document: each field holds exactly
the text pieces the corresponding selector pass in the sources would retrieve,
in document order.
`dlBlocks`: per `dl/.specification/...` block, the `dt` texts and `dd` texts.
`tableRows`: per `table tr` row, the text of the first `th`-or-`td` (if any)
and the texts of all `td` cells.
`grids`: per `div.grid.grid-cols-2.text-sm` container, the texts of its direct
`div` children.
`nameText`, `priceTexts`, `availText`, `ratingText`: the texts retrieved by
the title / price / availability / rating selectors of `parse_product_page`. -/
structure Doc where
  nameText : Option (List Char) := none
  priceTexts : List (List Char) := []
  availText : Option (List Char) := none
  ratingText : Option (List Char) := none
  dlBlocks : List (List (List Char) × List (List Char)) := []
  tableRows : List (Option (List Char) × List (List Char)) := []
  grids : List (List (List Char)) := []

/-- Model of `extract_from_spec_table(soup)` (src/parse_utils.py:163-196): definition
lists (only when label/value counts match and are positive), then table rows
(first header-or-cell as label, last cell as value), then two-child grids;
every pair is passed through `map_into_spec`. -/
def extract_from_spec_table (doc : Doc) : Spec :=
  let s1 := doc.dlBlocks.foldl
    (fun sp blk =>
      if blk.1.length = blk.2.length ∧ 0 < blk.1.length then
        (blk.1.zip blk.2).foldl
          (fun sp2 p => map_into_spec sp2 (lowerL (normWS p.1)) (normWS p.2)) sp
      else sp)
    emptySpec
  let s2 := doc.tableRows.foldl
    (fun sp row =>
      match row.1 with
      | some th =>
        if 1 ≤ row.2.length then
          map_into_spec sp (lowerL (normWS th)) (normWS ((row.2.getLast?).getD []))
        else sp
      | none => sp)
    s1
  let s3 := doc.grids.foldl
    (fun sp g =>
      match g with
      | [k, v] => map_into_spec sp (lowerL (normWS k)) (normWS v)
      | _ => sp)
    s2
  s3

/-- A definition list carrying only the pair (`"ram"`, `"16 GB"`). -/
def docC1First : Doc := { dlBlocks := [([strL "ram"], [strL "16 GB"])] }

/-- The same definition list extended with a second pair (`"pamięć"`, `"8 GB"`)
whose label maps to the same canonical field `ram_gb`. -/
def docC1Both : Doc :=
  { dlBlocks := [([strL "ram", strL "pamięć"], [strL "16 GB", strL "8 GB"])] }

/-- Counterexample to C1: the first pair alone assigns `ram_gb := "16 GB"`,
yet with the later pair (`"pamięć"`, `"8 GB"`) present the field ends up
`"8 GB"` — the later pair overwrote a value already assigned by an earlier
pair of the same pass, so first-writer-per-key does not hold. -/
theorem c1_counterexample :
    getF (extract_from_spec_table docC1First) F.ram_gb = some (strL "16 GB") ∧
    getF (extract_from_spec_table docC1Both) F.ram_gb = some (strL "8 GB") := by
  constructor
  · decide
  · decide

/-- C1 amended: merging is last-writer-per-key: `map_into_spec` assigns the
first matching rule's canonical field unconditionally, so any later
(label, value) pair whose label maps to field `f` overwrites `f` with its own
value (only the rule list itself is first-match-wins per label). -/
theorem c1_amended_last_writer :
    ∀ (sp : Spec) (k v : List Char) (f : F),
      ruleFor k mapping = some f → getF (map_into_spec sp k v) f = some v := by
  intro sp k v f h
  unfold map_into_spec
  rw [h]
  cases f <;> rfl

/-- Witness for the amended C1, at the inputs of the counterexample: the label
`"pamięć"` maps to `ram_gb`, and writing through it overwrites the previously
assigned `"16 GB"`. -/
theorem c1_amended_last_writer_witness :
    ruleFor (strL "pamięć") mapping = some F.ram_gb ∧
    getF (map_into_spec (setF emptySpec F.ram_gb (strL "16 GB")) (strL "pamięć") (strL "8 GB"))
      F.ram_gb = some (strL "8 GB") :=
  ⟨by decide, c1_amended_last_writer _ _ _ _ (by decide)⟩

-- ===== Title Spec Extractor (src/parse_utils.py:102-159) =====

/-- The ASCII apostrophe (written via its code point). -/
def aposC : Char := Char.ofNat 39

/-- Quote canonicalization at the top of `extract_specs_from_title`
(src/parse_utils.py:104): `"’’" → '"'` then `"’" → "'"`. -/
def replacePairQuote (t : List Char) : List Char :=
  strReplace (strL "’") [aposC] (strReplace (strL "’’") (strL "\"") t)

def sepDC (c : Char) : Bool := c = ',' || c = '.'

/-- Regex `(\d{1,2}[,.]\d)` (first match, greedy two-digit attempt first):
the screen-diagonal pattern. -/
def ssSearch : List Char → Option (List Char)
  | [] => none
  | c :: cs =>
    if isDigitC c then
      match cs with
      | d2 :: s :: d3 :: _ =>
        if isDigitC d2 && sepDC s && isDigitC d3 then some [c, d2, s, d3]
        else if sepDC d2 && isDigitC s then some [c, d2, s]
        else ssSearch cs
      | [d2, s] => if sepDC d2 && isDigitC s then some [c, d2, s] else ssSearch cs
      | _ => ssSearch cs
    else ssSearch cs

/-- Case-insensitive prefix test (`re.I` literal match at a position). -/
def prefixCI (pat l : List Char) : Bool := (lowerL pat).isPrefixOf (lowerL l)

def containsCI (needle hay : List Char) : Bool := containsSub (lowerL needle) (lowerL hay)

/-- Remainder check `\s*GB` (case-insensitive) after a digit run: skip the
whitespace run, then require `gb`. -/
def gbAfter (l : List Char) : Bool := prefixCI (strL "gb") (l.dropWhile isWsC)

/-- Regex `(\d+)\s*GB` (first match, case-insensitive), the RAM pattern
(src/parse_utils.py:124): returns the captured digit run. Backtracking into a
shorter digit run can never succeed (a digit is neither whitespace nor `g`),
so the greedy maximal run is the only candidate at each position. -/
def ramSearch : List Char → Option (List Char)
  | [] => none
  | c :: cs =>
    if isDigitC c then
      if gbAfter ((c :: cs).dropWhile isDigitC) then some ((c :: cs).takeWhile isDigitC)
      else ramSearch cs
    else ramSearch cs

/-- First `n` characters exist and are digits (`\d{n}` at the head). -/
def digitsPre (n : ℕ) (l : List Char) : Bool :=
  decide (n ≤ l.length) && (l.take n).all isDigitC

/-- Regex `(\d{3,4})\s*GB` (first match, case-insensitive, greedy `{3,4}`),
the storage-capacity pattern (src/parse_utils.py:129): four digits are
attempted before three at each position. -/
def storageSearch : List Char → Option (List Char)
  | [] => none
  | c :: cs =>
    if digitsPre 4 (c :: cs) && gbAfter ((c :: cs).drop 4) then some ((c :: cs).take 4)
    else if digitsPre 3 (c :: cs) && gbAfter ((c :: cs).drop 3) then some ((c :: cs).take 3)
    else storageSearch cs

/-- The resolution keyword list (src/parse_utils.py:113), scanned in order
against the upper-cased title. -/
def resolutionKeys : List (List Char) :=
  [strL "WUXGA", strL "QHD", strL "WQHD", strL "UHD", strL "4K", strL "FHD",
   strL "WXGA", strL "3K", strL "2.8K", strL "2880X1800", strL "1920X1080"]

/-- The panel keyword list (src/parse_utils.py:118). -/
def panelKeys : List (List Char) :=
  [strL "OLED", strL "IPS", strL "VA", strL "TN", strL "LTPS", strL "MINI LED", strL "RETINA"]

/-- Python `str.title()` on the character set in play: a cased letter is
upper-cased after a non-cased character and lower-cased otherwise. -/
def pyTitleAux : Bool → List Char → List Char
  | _, [] => []
  | prev, c :: cs =>
    (if isAlphaC c then (if prev then toLowerC c else toUpperC c) else c) ::
      pyTitleAux (isAlphaC c) cs

def pyTitleL (l : List Char) : List Char := pyTitleAux false l

/-- One alternative of `win\s*11|win11|windows\s*11` (case-insensitive)
matching at the head of the suffix. -/
def osWin11At (s : List Char) : Bool :=
  (prefixCI (strL "win") s && (strL "11").isPrefixOf ((s.drop 3).dropWhile isWsC)) ||
  prefixCI (strL "win11") s ||
  (prefixCI (strL "windows") s && (strL "11").isPrefixOf ((s.drop 7).dropWhile isWsC))

def osWin10At (s : List Char) : Bool :=
  (prefixCI (strL "win") s && (strL "10").isPrefixOf ((s.drop 3).dropWhile isWsC)) ||
  prefixCI (strL "win10") s ||
  (prefixCI (strL "windows") s && (strL "10").isPrefixOf ((s.drop 7).dropWhile isWsC))

/-- Driver for `re.search`: does the predicate match at some suffix position? -/
def existsSuffix (p : List Char → Bool) : List Char → Bool
  | [] => p []
  | c :: cs => p (c :: cs) || existsSuffix p cs

def osWin11 (t : List Char) : Bool := existsSuffix osWin11At t

def osWin10 (t : List Char) : Bool := existsSuffix osWin10At t

def wordDotC (c : Char) : Bool := isWordC c || c = '.'

/-- Stage `\s*klaw` of the backlight pattern. -/
def blB : List Char → Bool
  | [] => false
  | c :: cs => prefixCI (strL "klaw") (c :: cs) || (isWsC c && blB cs)

/-- Stage `[\w\.]*\s*klaw` of the backlight pattern. -/
def blA : List Char → Bool
  | [] => false
  | c :: cs =>
    prefixCI (strL "klaw") (c :: cs) || (isWsC c && blB cs) || (wordDotC c && blA cs)

/-- Alternative `pod[\w\.]*\s*klaw` of the backlight regex, searched at every
position. -/
def blScan : List Char → Bool
  | [] => false
  | c :: cs => (prefixCI (strL "pod") (c :: cs) && blA ((c :: cs).drop 3)) || blScan cs

/-- Backlight regex `pod[\w\.]*\s*klaw|podśw|backlit|backlight`
(src/parse_utils.py:142), existence of a match. -/
def backlightHit (t : List Char) : Bool :=
  blScan t || containsCI (strL "podśw") t || containsCI (strL "backlit") t ||
  containsCI (strL "backlight") t

/-- The color stem table (src/parse_utils.py:146-154), scanned in table order. -/
def colorMap : List (List Char × List Char) :=
  [(strL "niebiesk", strL "Niebieski"), (strL "szary", strL "Szary"),
   (strL "srebrn", strL "Srebrny"), (strL "czarn", strL "Czarny"),
   (strL "bial", strL "Biały"), (strL "zielon", strL "Zielony"),
   (strL "złoty", strL "Złoty")]

def firstColor (t : List Char) : Option (List Char) :=
  (colorMap.find? (fun p => containsCI p.1 t)).map (fun p => p.2)

def stepScreen (t : List Char) (s : Spec) : Spec :=
  match ssSearch t with
  | some g => setF s F.screen_size_inches (replaceChar ',' '.' g)
  | none => s

def stepRes (t : List Char) (s : Spec) : Spec :=
  match resolutionKeys.find? (fun k => containsSub k (upperL t)) with
  | some k => setF s F.screen_resolution k
  | none => s

def stepPanel (t : List Char) (s : Spec) : Spec :=
  match panelKeys.find? (fun k => containsSub k (upperL t)) with
  | some k => setF s F.panel_type (pyTitleL k)
  | none => s

def stepRam (t : List Char) (s : Spec) : Spec :=
  match ramSearch t with
  | some r => setF s F.ram_gb r
  | none => s

def stepStorage (t : List Char) (s : Spec) : Spec :=
  match storageSearch t with
  | some r => setF s F.storage_capacity_gb r
  | none => s

def stepOS (t : List Char) (s : Spec) : Spec :=
  if osWin11 t then setF s F.os (strL "Windows 11")
  else if osWin10 t then setF s F.os (strL "Windows 10")
  else if containsCI (strL "linux") t then setF s F.os (strL "Linux")
  else s

def stepBacklight (t : List Char) (s : Spec) : Spec :=
  if backlightHit t then setF s F.keyboard_backlight (strL "tak") else s

def stepColor (t : List Char) (s : Spec) : Spec :=
  match firstColor t with
  | some v => setF s F.color v
  | none => s

/-- Model of `extract_specs_from_title(title)` (src/parse_utils.py:102-159): quote
canonicalization, then the eight field extractions in source order. -/
def extract_specs_from_title (title : List Char) : Spec :=
  let t := replacePairQuote title
  stepColor t (stepBacklight t (stepOS t (stepStorage t
    (stepRam t (stepPanel t (stepRes t (stepScreen t emptySpec)))))))

-- ===== C10: RAM / storage pattern collision =====

theorem getF_setF_self (sp : Spec) (f : F) (v : List Char) : getF (setF sp f v) f = some v := by
  cases f <;> rfl

theorem getF_setF_ne (sp : Spec) {f g : F} (v : List Char) (h : f ≠ g) :
    getF (setF sp f v) g = getF sp g := by
  cases f <;> cases g <;> first | exact absurd rfl h | rfl

theorem ramSearch_cons (c : Char) (cs : List Char) :
    ramSearch (c :: cs) =
      if isDigitC c then
        (if gbAfter ((c :: cs).dropWhile isDigitC) then some ((c :: cs).takeWhile isDigitC)
         else ramSearch cs)
      else ramSearch cs := rfl

theorem storageSearch_cons (c : Char) (cs : List Char) :
    storageSearch (c :: cs) =
      if digitsPre 4 (c :: cs) && gbAfter ((c :: cs).drop 4) then some ((c :: cs).take 4)
      else if digitsPre 3 (c :: cs) && gbAfter ((c :: cs).drop 3) then some ((c :: cs).take 3)
      else storageSearch cs := rfl

theorem digitsPre_iff (n : ℕ) (l : List Char) :
    digitsPre n l = true ↔ n ≤ (l.takeWhile isDigitC).length := by
  induction l generalizing n with
  | nil => simp [digitsPre]
  | cons c cs ih =>
    cases n with
    | zero => simp [digitsPre]
    | succ m =>
      by_cases hc : isDigitC c = true
      · have hL : digitsPre (m + 1) (c :: cs) = digitsPre m cs := by
          simp [digitsPre, hc, List.take_succ_cons, Nat.succ_le_succ_iff]
        rw [hL, ih, List.takeWhile_cons, if_pos hc, List.length_cons, Nat.succ_le_succ_iff]
      · have hc' : isDigitC c = false := by simpa using hc
        simp [digitsPre, List.take_succ_cons, hc', List.takeWhile_cons]

theorem digit_not_ws {c : Char} (h : isDigitC c = true) : isWsC c = false := by
  have h1 : 48 ≤ c.toNat ∧ c.toNat ≤ 57 := by simpa [isDigitC] using h
  by_contra hw
  have hw' : isWsC c = true := by simpa using hw
  simp only [isWsC, Bool.or_eq_true, decide_eq_true_eq] at hw'
  rcases hw' with ((((((h2 | h2) | h2) | h2) | h2) | h2) | h2) <;>
    (rw [h2] at h1; revert h1; decide)

theorem gbAfter_digit_head {c : Char} {cs : List Char} (h : isDigitC c = true) :
    gbAfter (c :: cs) = false := by
  have h1 : 48 ≤ c.toNat ∧ c.toNat ≤ 57 := by simpa [isDigitC] using h
  have hup : isUpperA c = false := by
    simp only [isUpperA, Bool.and_eq_false_iff, decide_eq_false_iff_not, not_le]
    omega
  have hfind : plPairs.find? (fun p => p.1 = c) = none := by
    rw [List.find?_eq_none]
    intro p hp
    simp only [plPairs, List.mem_cons, List.not_mem_nil, or_false] at hp
    rcases hp with h2 | h2 | h2 | h2 | h2 | h2 | h2 | h2 | h2 <;>
      (subst h2; simp only [decide_eq_true_eq]; intro he; rw [← he] at h1; revert h1; decide)
  have hlow : toLowerC c = c := by simp [toLowerC, hup, hfind]
  have hg : toLowerC c ≠ 'g' := by
    rw [hlow]; intro he; rw [he] at h1; revert h1; decide
  have hbeq : ('g' == toLowerC c) = false := beq_eq_false_iff_ne.mpr (Ne.symm hg)
  unfold gbAfter
  rw [List.dropWhile_cons, if_neg (by simp [digit_not_ws h])]
  have hmap : lowerL (strL "gb") = 'g' :: ['b'] := by decide
  unfold prefixCI
  rw [hmap]
  unfold lowerL
  rw [List.map_cons]
  simp [List.isPrefixOf, hbeq]

theorem mem_takeWhile_digit {d : Char} {l : List Char}
    (h : d ∈ l.takeWhile isDigitC) : isDigitC d = true := by
  induction l with
  | nil => simp at h
  | cons c cs ih =>
    rw [List.takeWhile_cons] at h
    by_cases hc : isDigitC c = true
    · rw [if_pos hc] at h
      rcases List.mem_cons.mp h with h1 | h2
      · rwa [h1]
      · exact ih h2
    · rw [if_neg hc] at h; simp at h

theorem storage_branch_false (t : List Char) (n : ℕ)
    (hg : gbAfter (t.dropWhile isDigitC) = false) :
    (digitsPre n t && gbAfter (t.drop n)) = false := by
  by_cases hd : digitsPre n t = true
  · have hnr : n ≤ (t.takeWhile isDigitC).length := (digitsPre_iff n t).mp hd
    have ht : t.takeWhile isDigitC ++ t.dropWhile isDigitC = t :=
      List.takeWhile_append_dropWhile isDigitC t
    rcases Nat.eq_or_lt_of_le hnr with heq | hlt
    · have hdrop : t.drop n = t.dropWhile isDigitC := by
        conv_lhs => rw [← ht]
        rw [heq, List.drop_left]
      rw [hdrop, hg, Bool.and_false]
    · have hdrop : t.drop n = (t.takeWhile isDigitC).drop n ++ t.dropWhile isDigitC := by
        conv_lhs => rw [← ht]
        exact List.drop_append_of_le_length (le_of_lt hlt)
      rcases hrd : (t.takeWhile isDigitC).drop n with _ | ⟨d, ds⟩
      · exfalso
        have := congrArg List.length hrd
        simp [List.length_drop] at this
        omega
      · have hdmem : d ∈ t.takeWhile isDigitC :=
          List.mem_of_mem_drop (by rw [hrd]; exact List.mem_cons_self _ _)
        have hddig : isDigitC d = true := mem_takeWhile_digit hdmem
        rw [hdrop, hrd, List.cons_append, gbAfter_digit_head hddig, Bool.and_false]
  · have hd' : digitsPre n t = false := by simpa using hd
    rw [hd', Bool.false_and]

/-- When the first `(\d+)\s*GB` match captures a 3- or 4-digit run, the
`(\d{3,4})\s*GB` search finds exactly the same run. -/
theorem ram_storage_same : ∀ t s : List Char, ramSearch t = some s →
    3 ≤ s.length → s.length ≤ 4 → storageSearch t = some s := by
  intro t
  induction t with
  | nil => intro s h _ _; simp [ramSearch] at h
  | cons c cs ih =>
    intro s h h3 h4
    by_cases hc : isDigitC c = true
    · by_cases hg : gbAfter ((c :: cs).dropWhile isDigitC) = true
      · rw [ramSearch_cons, if_pos hc, if_pos hg] at h
        have hs : (c :: cs).takeWhile isDigitC = s := by simpa using h
        have ht : (c :: cs).takeWhile isDigitC ++ (c :: cs).dropWhile isDigitC = c :: cs :=
          List.takeWhile_append_dropWhile isDigitC (c :: cs)
        have hlen34 : ((c :: cs).takeWhile isDigitC).length = 3 ∨
            ((c :: cs).takeWhile isDigitC).length = 4 := by
          rw [hs]; omega
        rcases hlen34 with hl | hl
        · have hd3 : digitsPre 3 (c :: cs) = true := (digitsPre_iff _ _).mpr (by omega)
          have hd4 : digitsPre 4 (c :: cs) = false := by
            by_contra hx
            have := (digitsPre_iff 4 (c :: cs)).mp (by simpa using hx)
            omega
          have hdrop : (c :: cs).drop 3 = (c :: cs).dropWhile isDigitC := by
            conv_lhs => rw [← ht]
            rw [← hl, List.drop_left]
          have htake : (c :: cs).take 3 = (c :: cs).takeWhile isDigitC := by
            conv_lhs => rw [← ht]
            rw [← hl, List.take_left]
          rw [storageSearch_cons, hd4, Bool.false_and, if_neg (by simp),
            hd3, hdrop, hg, Bool.and_self, if_pos rfl, htake, hs]
        · have hd4 : digitsPre 4 (c :: cs) = true := (digitsPre_iff _ _).mpr (by omega)
          have hdrop : (c :: cs).drop 4 = (c :: cs).dropWhile isDigitC := by
            conv_lhs => rw [← ht]
            rw [← hl, List.drop_left]
          have htake : (c :: cs).take 4 = (c :: cs).takeWhile isDigitC := by
            conv_lhs => rw [← ht]
            rw [← hl, List.take_left]
          rw [storageSearch_cons, hd4, hdrop, hg, Bool.and_self, if_pos rfl, htake, hs]
      · have hg' : gbAfter ((c :: cs).dropWhile isDigitC) = false := by simpa using hg
        rw [ramSearch_cons, if_pos hc, if_neg (by simp [hg'])] at h
        have hrec := ih s h h3 h4
        have hb4 := storage_branch_false (c :: cs) 4 hg'
        have hb3 := storage_branch_false (c :: cs) 3 hg'
        rw [storageSearch_cons, hb4, if_neg (by simp), hb3, if_neg (by simp)]
        exact hrec
    · have hc' : isDigitC c = false := by simpa using hc
      rw [ramSearch_cons, if_neg (by simp [hc'])] at h
      have hrec := ih s h h3 h4
      have htw : (c :: cs).takeWhile isDigitC = [] := by
        rw [List.takeWhile_cons, if_neg (by simp [hc'])]
      have hd4 : digitsPre 4 (c :: cs) = false := by
        by_contra hx
        have h44 := (digitsPre_iff 4 (c :: cs)).mp (by simpa using hx)
        rw [htw] at h44
        simp at h44
      have hd3 : digitsPre 3 (c :: cs) = false := by
        by_contra hx
        have h33 := (digitsPre_iff 3 (c :: cs)).mp (by simpa using hx)
        rw [htw] at h33
        simp at h33
      rw [storageSearch_cons, hd4, if_neg (by simp), hd3, if_neg (by simp)]
      exact hrec

theorem stepColor_pres (t : List Char) (s : Spec) {g : F} (h : F.color ≠ g) :
    getF (stepColor t s) g = getF s g := by
  unfold stepColor
  cases firstColor t with
  | none => rfl
  | some v => exact getF_setF_ne s v h

theorem stepBacklight_pres (t : List Char) (s : Spec) {g : F}
    (h : F.keyboard_backlight ≠ g) : getF (stepBacklight t s) g = getF s g := by
  unfold stepBacklight
  split_ifs with h1
  · exact getF_setF_ne s _ h
  · rfl

theorem stepOS_pres (t : List Char) (s : Spec) {g : F} (h : F.os ≠ g) :
    getF (stepOS t s) g = getF s g := by
  unfold stepOS
  split_ifs <;> first | exact getF_setF_ne s _ h | rfl

theorem stepStorage_pres (t : List Char) (s : Spec) {g : F}
    (h : F.storage_capacity_gb ≠ g) : getF (stepStorage t s) g = getF s g := by
  unfold stepStorage
  cases storageSearch t with
  | none => rfl
  | some v => exact getF_setF_ne s v h

/-- C10: if the first `<digits>GB` occurrence of the (quote-canonicalized)
title captures a 3- or 4-digit run, `extract_specs_from_title` assigns that
same digit string to both `ram_gb` and `storage_capacity_gb`: the two fields
collide on such titles. -/
theorem c10_ram_storage_collision :
    ∀ title s : List Char,
      ramSearch (replacePairQuote title) = some s →
      3 ≤ s.length → s.length ≤ 4 →
      getF (extract_specs_from_title title) F.ram_gb = some s ∧
      getF (extract_specs_from_title title) F.storage_capacity_gb = some s := by
  intro title s h h3 h4
  have hst := ram_storage_same (replacePairQuote title) s h h3 h4
  unfold extract_specs_from_title
  constructor
  · rw [stepColor_pres _ _ (by decide), stepBacklight_pres _ _ (by decide),
      stepOS_pres _ _ (by decide), stepStorage_pres _ _ (by decide)]
    unfold stepRam
    rw [h]
    exact getF_setF_self _ _ _
  · rw [stepColor_pres _ _ (by decide), stepBacklight_pres _ _ (by decide),
      stepOS_pres _ _ (by decide)]
    unfold stepStorage
    rw [hst]
    exact getF_setF_self _ _ _

/-- Witness for C10 at the title `"Dell XPS 512GB"`: its first `<digits>GB`
match is the 3-digit run `512`, and both fields receive `"512"`. -/
theorem c10_ram_storage_collision_witness :
    ramSearch (replacePairQuote (strL "Dell XPS 512GB")) = some (strL "512") ∧
    getF (extract_specs_from_title (strL "Dell XPS 512GB")) F.ram_gb = some (strL "512") ∧
    getF (extract_specs_from_title (strL "Dell XPS 512GB")) F.storage_capacity_gb =
      some (strL "512") :=
  ⟨by decide,
   (c10_ram_storage_collision (strL "Dell XPS 512GB") (strL "512")
      (by decide) (by decide) (by decide)).1,
   (c10_ram_storage_collision (strL "Dell XPS 512GB") (strL "512")
      (by decide) (by decide) (by decide)).2⟩

-- ===== Brand/Model Resolver (src/parse_utils.py:53-100) =====

/-- Guarded `t.split()[0]`: Python whitespace split, first token; `none` when
there is no token (in which case the subscript raises `IndexError`). -/
def firstTok (t : List Char) : Option (List Char) :=
  match t.dropWhile isWsC with
  | [] => none
  | c :: cs => some ((c :: cs).takeWhile (fun d => !isWsC d))

/-- Case-insensitive word-boundary match of the literal `pat` at the head of
`s` (regex `\b pat \b` with `re.I`); `prev` is the character just before this
position (`none` at the start of the text). -/
def wbMatchAt (pat : List Char) (prev : Option Char) (s : List Char) : Bool :=
  prefixCI pat s &&
  (match pat.head? with
   | none => false
   | some p0 =>
     (match prev with | some pc => isWordC pc | none => false) != isWordC p0) &&
  (match pat.getLast? with
   | none => false
   | some pl =>
     (match (s.drop pat.length).head? with | some nc => isWordC nc | none => false)
       != isWordC pl)

def wbFindAux (pat : List Char) : Option Char → ℕ → List Char → Option ℕ
  | _, _, [] => none
  | prev, i, c :: cs =>
    if wbMatchAt pat prev (c :: cs) then some i else wbFindAux pat (some c) (i + 1) cs

/-- Search of the word-boundary pattern built from a literal (case-insensitive): position of the first
word-boundary occurrence. -/
def wbFind (pat s : List Char) : Option ℕ := wbFindAux pat none 0 s

def wbRemoveAux (pat : List Char) : Option Char → List Char → List Char
  | _, [] => []
  | prev, c :: cs =>
    if wbMatchAt pat prev (c :: cs) then (c :: cs).drop pat.length
    else c :: wbRemoveAux pat (some c) cs

/-- Removal of the first case-insensitive word-boundary occurrence of the literal (the count-1 sub of src/parse_utils.py:81). -/
def wbRemove (pat s : List Char) : List Char := wbRemoveAux pat none s

/-- The known-brand gazetteer (src/parse_utils.py:53-58), in source order. -/
def KNOWN_BRANDS : List (List Char × List Char) :=
  [(strL "LENOVO", strL "Lenovo"), (strL "HP", strL "HP"),
   (strL "HEWLETT-PACKARD", strL "HP"), (strL "APPLE", strL "Apple"),
   (strL "DELL", strL "Dell"), (strL "ASUS", strL "ASUS"),
   (strL "ACER", strL "Acer"), (strL "MSI", strL "MSI"),
   (strL "HUAWEI", strL "Huawei"), (strL "LG", strL "LG"),
   (strL "MICROSOFT", strL "Microsoft"), (strL "SAMSUNG", strL "Samsung"),
   (strL "TOSHIBA", strL "Toshiba"), (strL "RAZER", strL "Razer"),
   (strL "GIGABYTE", strL "Gigabyte"), (strL "CHUWI", strL "Chuwi"),
   (strL "MEDION", strL "Medion"), (strL "XIAOMI", strL "Xiaomi")]

/-- The earliest-occurrence brand scan (src/parse_utils.py:72-77): iterate the
gazetteer in order keeping the canonical form with the strictly smallest match
position. -/
def brandScan (t : List Char) : Option (List Char × ℕ) :=
  KNOWN_BRANDS.foldl
    (fun st p =>
      match wbFind p.1 t with
      | some pos =>
        match st with
        | none => some (p.2, pos)
        | some q => if pos < q.2 then some (p.2, pos) else st
      | none => st)
    none

/-- Model of `re.sub(r"^(Laptop|Notebook|Ultrabook)\s+", "", rest, flags=re.I)`
(src/parse_utils.py:82). -/
def stripLeadCategory (rest : List Char) : List Char :=
  match [strL "laptop", strL "notebook", strL "ultrabook"].find?
      (fun w => prefixCI w rest &&
        (match (rest.drop w.length).head? with | some c => isWsC c | none => false)) with
  | some w => (rest.drop w.length).dropWhile isWsC
  | none => rest

def dashC (c : Char) : Bool := c = '–' || c = '—' || c = '-'

/-- One of the separator alternatives `\s*[–—-]\s*`, `\s*\|\s*`, `,\s*`,
`\(\s*` matches starting at this position. -/
def sepAt (s : List Char) : Bool :=
  (match (s.dropWhile isWsC).head? with
   | some c => dashC c || c = '|'
   | none => false) ||
  (match s.head? with
   | some c => c = ',' || c = '('
   | none => false)

/-- The text before the first separator match
(`re.split(..., rest, maxsplit=1)[0]`, src/parse_utils.py:84). -/
def beforeSep : List Char → List Char
  | [] => []
  | c :: cs => if sepAt (c :: cs) then [] else c :: beforeSep cs

def tokSepC (c : Char) : Bool := c = '-' || c = '_' || c = '/'

/-- One token of `[A-Za-z0-9]+(?:[-_/][A-Za-z0-9]+)*` starting at an
alphanumeric head: the run plus any separator-joined continuation runs
(fuel-driven; `findTokens` supplies sufficient fuel). -/
def takeTokenF : ℕ → List Char → (List Char × List Char)
  | 0, l => ([], l)
  | f + 1, l =>
    let run := l.takeWhile isAlnumC
    let rest := l.dropWhile isAlnumC
    match rest with
    | s :: r2 =>
      if tokSepC s && (match r2.head? with | some d => isAlnumC d | none => false) then
        let tr := takeTokenF f r2
        (run ++ s :: tr.1, tr.2)
      else (run, rest)
    | [] => (run, [])

def tokensF : ℕ → List Char → List (List Char)
  | 0, _ => []
  | _ + 1, [] => []
  | f + 1, c :: cs =>
    if isAlnumC c then
      let tr := takeTokenF (cs.length + 1) (c :: cs)
      tr.1 :: tokensF f tr.2
    else tokensF f cs

/-- Model of `re.findall(r"[A-Za-z0-9]+(?:[-_/][A-Za-z0-9]+)*", first_chunk)`
(src/parse_utils.py:86). -/
def findTokens (l : List Char) : List (List Char) := tokensF (l.length + 1) l

def isAsciiAlphaC (c : Char) : Bool := isUpperA c || isLowerA c

/-- CPU token classifier
`^(i[3579](?:-\d{4,5}[A-Za-z]*)?|ryzen|core|celeron|pentium|m\d|m-?series)$`,
case-insensitive full match. -/
def cpuTok (tok : List Char) : Bool :=
  let lc := lowerL tok
  lc == strL "ryzen" || lc == strL "core" || lc == strL "celeron" ||
  lc == strL "pentium" || lc == strL "mseries" || lc == strL "m-series" ||
  (match lc with
   | [m, d] => m = 'm' && isDigitC d
   | _ => false) ||
  (match lc with
   | i :: x :: rest =>
     i = 'i' && (x = '3' || x = '5' || x = '7' || x = '9') &&
     (rest.isEmpty ||
      (match rest with
       | h :: r2 =>
         h = '-' &&
         (let ds := r2.takeWhile isDigitC
          let ls := r2.dropWhile isDigitC
          (decide (ds.length = 4) || decide (ds.length = 5)) && ls.all isAsciiAlphaC)
       | [] => false))
   | _ => false)

/-- RAM token classifier `^\d+\s*(gb|gib)$`, case-insensitive full match. -/
def ramTok (tok : List Char) : Bool :=
  let lc := lowerL tok
  let ds := lc.takeWhile isDigitC
  let r2 := (lc.dropWhile isDigitC).dropWhile isWsC
  !ds.isEmpty && (r2 == strL "gb" || r2 == strL "gib")

/-- Resolution token classifier
`^(fhd|uhd|wqhd|qhd|wuxga|wxga|retina|4k|3k|2\.?8k|\d{3,4}x\d{3,4})$`. -/
def resTok (tok : List Char) : Bool :=
  let lc := lowerL tok
  lc == strL "fhd" || lc == strL "uhd" || lc == strL "wqhd" || lc == strL "qhd" ||
  lc == strL "wuxga" || lc == strL "wxga" || lc == strL "retina" ||
  lc == strL "4k" || lc == strL "3k" || lc == strL "28k" || lc == strL "2.8k" ||
  (let a := lc.takeWhile isDigitC
   match lc.dropWhile isDigitC with
   | x :: r2 =>
     x = 'x' &&
     (let b := r2.takeWhile isDigitC
      decide (3 ≤ a.length) && decide (a.length ≤ 4) &&
      decide (3 ≤ b.length) && decide (b.length ≤ 4) &&
      (r2.dropWhile isDigitC).isEmpty)
   | [] => false)

/-- OS token classifier `^(windows|win\d+|linux|dos|freedos)$`. -/
def osTok (tok : List Char) : Bool :=
  let lc := lowerL tok
  lc == strL "windows" || lc == strL "linux" || lc == strL "dos" ||
  lc == strL "freedos" ||
  ((strL "win").isPrefixOf lc &&
   (let r := lc.drop 3
    !r.isEmpty && r.all isDigitC))

/-- Marketing-adjective classifier `^(gaming|business|home|student)$`. -/
def badTok (tok : List Char) : Bool :=
  let lc := lowerL tok
  lc == strL "gaming" || lc == strL "business" || lc == strL "home" ||
  lc == strL "student"

def tokenFiltered (tok : List Char) : Bool :=
  cpuTok tok || ramTok tok || resTok tok || osTok tok || badTok tok

def joinWith (sep : Char) : List (List Char) → List Char
  | [] => []
  | [w] => w
  | w :: ws => w ++ sep :: joinWith sep ws

def qCharC (c : Char) : Bool :=
  isAsciiAlphaC c || isDigitC c || c = '-' || c = '_' || c = '/'

/-- Fallback model regex `([A-Za-z]{2,}[A-Za-z0-9\-_/]+)` (first match,
src/parse_utils.py:97): at each position with a maximal ASCII-letter run `L`
followed by a maximal `[A-Za-z0-9\-_/]` run `Q`, the greedy match is `L ++ Q`
when `|L| ≥ 2` and `|Q| ≥ 1`, or `L` alone when `|L| ≥ 3` (the `{2,}` group
backtracks one letter into the second group), otherwise no match here. -/
def fbSearch : List Char → Option (List Char)
  | [] => none
  | c :: cs =>
    if isAsciiAlphaC c then
      let L := (c :: cs).takeWhile isAsciiAlphaC
      let rest := (c :: cs).dropWhile isAsciiAlphaC
      let Q := rest.takeWhile qCharC
      if decide (2 ≤ L.length) && decide (1 ≤ Q.length) then some (L ++ Q)
      else if decide (3 ≤ L.length) then some L
      else fbSearch cs
    else fbSearch cs

/-- Model of `guess_brand_model_from_name(name)` (src/parse_utils.py:60-100). The outer
`Option` marks the one possible exception: with no gazetteer match and no
whitespace-delimited token, `t.split()[0]` raises `IndexError` (`none`). -/
def guess_brand_model_from_name :
    Option (List Char) → Option (Option (List Char) × Option (List Char))
  | none => some (none, none)
  | some name =>
    if name = [] then some (none, none)
    else
      let t := normWS name
      let brandOpt : Option (List Char) :=
        match brandScan t with
        | some p => some p.1
        | none => firstTok t
      match brandOpt with
      | none => none
      | some brand =>
        let rest0 := trimWS (wbRemove brand t)
        let rest := stripLeadCategory rest0
        let firstChunk := trimWS (beforeSep rest)
        let toks := findTokens firstChunk
        let mts := toks.filter (fun tok => !tokenFiltered tok)
        let model0 := trimWS (joinWith ' ' (mts.take 4))
        let model2 : Option (List Char) :=
          if model0 = [] then fbSearch rest
          else if lowerL model0 = lowerL brand then fbSearch rest
          else some model0
        some (some brand, model2)

/-- C3: at the whitespace-only title `" "` the resolver raises (modelled as
`none`): the title is truthy, normalization empties it, no gazetteer brand
matches, and `t.split()[0]` hits an empty token list (`IndexError`) instead of
returning (absent, absent). -/
theorem c3_whitespace_title_raises :
    guess_brand_model_from_name (some (strL " ")) = none := by decide

/-- The C8 title, with its two ASCII apostrophes (`15,3''`) built explicitly. -/
def titleC8 : List Char :=
  strL "Lenovo IdeaPad Slim 3-15 - Core i5-13420H | 15,3" ++ [aposC, aposC] ++
    strL " WUXGA | 16GB | 512GB | Win11"

/-- Counterexample to C8: on the specified title the resolver returns the model
`"IdeaPad Slim 3"` — the separator regex `\s*[–—-]\s*` splits inside
`"3-15"` — and `"IdeaPad Slim 3-15"` is not contained in it. -/
theorem c8_counterexample :
    guess_brand_model_from_name (some titleC8) =
      some (some (strL "Lenovo"), some (strL "IdeaPad Slim 3")) ∧
    containsSub (strL "IdeaPad Slim 3-15") (strL "IdeaPad Slim 3") = false := by
  constructor
  · decide
  · decide

/-- C8 amended: the resolver yields brand `"Lenovo"` and model
`"IdeaPad Slim 3"` (the dash inside `"3-15"` is taken as the separator, so
`-15` is cut off); the model contains `"IdeaPad Slim 3"` and none of the
tokens `"i5-13420H"`, `"16GB"`, `"WUXGA"`, `"Win11"`. -/
theorem c8_amended_brand_model :
    guess_brand_model_from_name (some titleC8) =
      some (some (strL "Lenovo"), some (strL "IdeaPad Slim 3")) ∧
    containsSub (strL "IdeaPad Slim 3") (strL "IdeaPad Slim 3") = true ∧
    containsSub (strL "i5-13420H") (strL "IdeaPad Slim 3") = false ∧
    containsSub (strL "16GB") (strL "IdeaPad Slim 3") = false ∧
    containsSub (strL "WUXGA") (strL "IdeaPad Slim 3") = false ∧
    containsSub (strL "Win11") (strL "IdeaPad Slim 3") = false := by
  refine ⟨?_, by decide, by decide, by decide, by decide, by decide⟩
  decide

-- ===== Record Assembler (src/scraper.py:93-212) =====

/-- Regex `(\d+(?:\.\d+)?)` (first match) used by `parse_float`
(src/parse_utils.py:38-43). -/
def floatTok : List Char → Option (List Char)
  | [] => none
  | c :: cs =>
    if isDigitC c then
      some
        (let run := (c :: cs).takeWhile isDigitC
         let rest := (c :: cs).dropWhile isDigitC
         match rest with
         | s :: r2 =>
           if s = '.' then
             match r2.takeWhile isDigitC with
             | [] => run
             | fr => run ++ s :: fr
           else run
         | [] => run)
    else floatTok cs

/-- Model of `parse_float(s)` (src/parse_utils.py:38-43): comma becomes period, first
float token is converted (exactly, as a rational). -/
def parse_float (s : Option (List Char)) : Option ℚ :=
  match s with
  | none => none
  | some t => (floatTok (replaceChar ',' '.' t)).map decVal

def intTok : List Char → Option (List Char)
  | [] => none
  | c :: cs => if isDigitC c then some ((c :: cs).takeWhile isDigitC) else intTok cs

/-- Model of `parse_int(s)` (src/parse_utils.py:45-49): first digit run. -/
def parse_int (s : Option (List Char)) : Option ℕ :=
  match s with
  | none => none
  | some t => (intTok t).map natVal

/-- Regex `(\d+[.,]\d+)` (first match) of the rating extraction
(src/scraper.py:158). -/
def ratingTok : List Char → Option (List Char)
  | [] => none
  | c :: cs =>
    if isDigitC c then
      let run := (c :: cs).takeWhile isDigitC
      let rest := (c :: cs).dropWhile isDigitC
      match rest with
      | s2 :: r2 =>
        if sepDC s2 then
          match r2.takeWhile isDigitC with
          | [] => ratingTok cs
          | fr => some (run ++ s2 :: fr)
        else ratingTok cs
      | [] => none
    else ratingTok cs

/-- Regex `(\d+)\s*(opini|recenz|ocen)` (first match, on the lower-cased
text) of the reviews-count extraction (src/scraper.py:161). -/
def reviewsTok : List Char → Option (List Char)
  | [] => none
  | c :: cs =>
    if isDigitC c then
      let run := (c :: cs).takeWhile isDigitC
      let r2 := ((c :: cs).dropWhile isDigitC).dropWhile isWsC
      if (strL "opini").isPrefixOf r2 || (strL "recenz").isPrefixOf r2 ||
          (strL "ocen").isPrefixOf r2 then some run
      else reviewsTok cs
    else reviewsTok cs

/-- The truthy test of the keyboard-backlight normalization
(src/scraper.py:189): `"tak" in kb or "podś" in kb or "podsw" in kb or
kb in ("yes", "true", "1")`. -/
def kbTruthy (kb : List Char) : Bool :=
  containsSub (strL "tak") kb || containsSub (strL "podś") kb ||
  containsSub (strL "podsw") kb ||
  kb == strL "yes" || kb == strL "true" || kb == strL "1"

/-- Keyboard-backlight normalization (src/scraper.py:186-189):
`kb = (spec_map.get("keyboard_backlight") or "").lower()`; when `kb` is
non-empty the result is the boolean truthy test, otherwise it stays `None`. -/
def normalize_keyboard_backlight (v : Option (List Char)) : Option Bool :=
  let kb := lowerL (v.getD [])
  if kb = [] then none else some (kbTruthy kb)

/-- Regex `/product/(\d+)/` search of `extract_product_id_from_url`
(src/scraper.py:116-118). -/
def productIdTok : List Char → Option (List Char)
  | [] => none
  | c :: cs =>
    if (strL "/product/").isPrefixOf (c :: cs) then
      let r := (c :: cs).drop 9
      let ds := r.takeWhile isDigitC
      if !ds.isEmpty &&
          (match (r.drop ds.length).head? with | some c2 => c2 = '/' | none => false) then
        some ds
      else productIdTok cs
    else productIdTok cs

def extract_product_id_from_url (url : List Char) : Option (List Char) := productIdTok url

/-- The `ProductRow` dataclass (src/scraper.py:93-114). -/
structure ProductRow where
  product_id : Option (List Char)
  name : Option (List Char)
  brand : Option (List Char)
  model : Option (List Char)
  price_pln : Option ℚ
  availability : Option (List Char)
  rating : Option ℚ
  reviews_count : Option ℕ
  screen_size_inches : Option ℚ
  screen_resolution : Option (List Char)
  panel_type : Option (List Char)
  cpu : Option (List Char)
  gpu : Option (List Char)
  ram_gb : Option ℕ
  storage_type : Option (List Char)
  storage_capacity_gb : Option ℕ
  os : Option (List Char)
  color : Option (List Char)
  keyboard_backlight : Option Bool
  product_url : Option (List Char)
deriving DecidableEq

/-- The page name: normalized title-element text when present
(src/scraper.py:125-126). -/
def nameOf (doc : Doc) : Option (List Char) := doc.nameText.map normWS

/-- The price loop (src/scraper.py:139-143): first candidate whose cleaned
price is non-absent. -/
def firstPrice : List (List Char) → Option ℚ
  | [] => none
  | t :: ts =>
    match clean_price_pln (some t) with
    | some v => some v
    | none => firstPrice ts

/-- Call `extract_specs_from_title(name or "")` (src/scraper.py:171). -/
def titleMapOf (doc : Doc) : Spec := extract_specs_from_title ((nameOf doc).getD [])

/-- The `setdefault` merge of title-derived pairs into the spec-table map
(src/scraper.py:172-173): per canonical field, the spec-table value if
present, else the title value. -/
def mergeSpec (a b : Spec) : Spec :=
  { screen_size_inches := a.screen_size_inches.or b.screen_size_inches
    screen_resolution := a.screen_resolution.or b.screen_resolution
    panel_type := a.panel_type.or b.panel_type
    cpu := a.cpu.or b.cpu
    gpu := a.gpu.or b.gpu
    ram_gb := a.ram_gb.or b.ram_gb
    storage_type := a.storage_type.or b.storage_type
    storage_capacity_gb := a.storage_capacity_gb.or b.storage_capacity_gb
    os := a.os.or b.os
    color := a.color.or b.color
    keyboard_backlight := a.keyboard_backlight.or b.keyboard_backlight
    availability := a.availability.or b.availability
    rating := a.rating.or b.rating
    reviews_count := a.reviews_count.or b.reviews_count }

def mergedOf (doc : Doc) : Spec := mergeSpec (extract_from_spec_table doc) (titleMapOf doc)

/-- Rating / reviews extraction from the matched rating element
(src/scraper.py:151-163). -/
def ratingPairOf (doc : Doc) : Option ℚ × Option ℕ :=
  match doc.ratingText with
  | none => (none, none)
  | some txt =>
    ((ratingTok txt).bind (fun g => parse_float (some g)),
     (reviewsTok (lowerL txt)).bind (fun g => parse_int (some g)))

/-- Guarded call `guess_brand_model_from_name(name) if name else (None, None)`
(src/scraper.py:169). -/
def brandModelOf (doc : Doc) : Option (Option (List Char) × Option (List Char)) :=
  match nameOf doc with
  | some s => if s = [] then some (none, none) else guess_brand_model_from_name (some s)
  | none => some (none, none)

/-- Model of `parse_product_page(html, url)` (src/scraper.py:120-212) over the
document abstraction; the outer `Option` marks a propagated exception (the
only raising sub-call is the brand/model resolver). -/
def parse_product_page (doc : Doc) (url : List Char) : Option ProductRow :=
  match brandModelOf doc with
  | none => none
  | some bm =>
    let merged := mergedOf doc
    some
      { product_id := extract_product_id_from_url url
        name := nameOf doc
        brand := bm.1
        model := bm.2
        price_pln := firstPrice doc.priceTexts
        availability := doc.availText.map normWS
        rating := (ratingPairOf doc).1
        reviews_count := (ratingPairOf doc).2
        screen_size_inches := parse_float (getF merged F.screen_size_inches)
        screen_resolution := getF merged F.screen_resolution
        panel_type := getF merged F.panel_type
        cpu := getF merged F.cpu
        gpu := getF merged F.gpu
        ram_gb := parse_int (getF merged F.ram_gb)
        storage_type := getF merged F.storage_type
        storage_capacity_gb := parse_int (getF merged F.storage_capacity_gb)
        os := getF merged F.os
        color := getF merged F.color
        keyboard_backlight := normalize_keyboard_backlight (getF merged F.keyboard_backlight)
        product_url := some url }

-- ===== C2, C4, C6 =====

theorem guess_ne_none {raw : List Char} (h : normWS raw ≠ []) :
    guess_brand_model_from_name (some (normWS raw)) ≠ none := by
  have hhead : ∀ c, (normWS raw).head? = some c → isWsC c = false :=
    fun c hc => normWS_head hc
  have hds : (normWS raw).dropWhile isWsC = normWS raw := dropWhile_eq_self_of_head hhead
  have hft : ∃ w, firstTok (normWS raw) = some w := by
    unfold firstTok
    rw [hds]
    rcases hnw : normWS raw with _ | ⟨c, cs⟩
    · exact absurd hnw h
    · exact ⟨_, rfl⟩
  simp only [guess_brand_model_from_name]
  rw [if_neg h, normWS_idem]
  rcases hbs : brandScan (normWS raw) with _ | p
  · rcases hft with ⟨w, hw⟩
    simp [hbs, hw]
  · simp [hbs]

/-- C2: for every document abstraction and every URL, `parse_product_page`
returns a record (it cannot propagate an exception: the title, when present,
is itself whitespace-normalized, so the resolver's `t.split()[0]` subscript is
always guarded) and the record's `product_url` equals the supplied URL. -/
theorem c2_parse_product_page_total :
    ∀ (doc : Doc) (url : List Char),
      ∃ row, parse_product_page doc url = some row ∧ row.product_url = some url := by
  intro doc url
  unfold parse_product_page
  rcases hbm : brandModelOf doc with _ | bm
  · exfalso
    rcases hname : nameOf doc with _ | s
    · simp [brandModelOf, hname] at hbm
    · simp only [brandModelOf, hname] at hbm
      by_cases hs : s = []
      · rw [if_pos hs] at hbm; simp at hbm
      · rw [if_neg hs] at hbm
        unfold nameOf at hname
        rcases hnt : doc.nameText with _ | raw
        · rw [hnt] at hname; simp at hname
        · rw [hnt] at hname
          simp only [Option.map_some', Option.some.injEq] at hname
          have hraw : normWS raw ≠ [] := by rw [hname]; exact hs
          have := guess_ne_none hraw
          rw [hname] at this
          exact this hbm
  · exact ⟨_, rfl, rfl⟩

/-- Counterexample to C4: the non-empty, non-truthy spec value `"nie"` is
normalized to `some false`, not to absent. -/
theorem c4_counterexample :
    normalize_keyboard_backlight (some (strL "nie")) = some false := by decide

/-- C4 amended: absent or empty input maps to absent, and every non-empty
input maps to a present boolean — `true` exactly when the lower-cased value
passes the fixed truthy test (`"tak"`/`"podś"`/`"podsw"` substrings or
equality with `"yes"`/`"true"`/`"1"`), and `false` (not absent) otherwise. -/
theorem c4_amended_backlight_normalization :
    normalize_keyboard_backlight none = none ∧
    normalize_keyboard_backlight (some []) = none ∧
    (∀ s : List Char, s ≠ [] →
      normalize_keyboard_backlight (some s) = some (kbTruthy (lowerL s))) := by
  refine ⟨rfl, rfl, ?_⟩
  intro s hs
  unfold normalize_keyboard_backlight
  rw [if_neg (by simpa [lowerL] using hs)]
  rfl

/-- Witness for the amended C4: the non-truthy value `"brak"` yields
`some false`. -/
theorem c4_amended_backlight_normalization_witness :
    normalize_keyboard_backlight (some (strL "brak")) = some false := by
  rw [c4_amended_backlight_normalization.2.2 (strL "brak") (by decide)]
  decide

/-- C6: spec-table precedence in the assembled record: a field present in the
spec-table map keeps its spec-table value in the merged map, a field absent
from it receives the title-derived value, and the record's
`screen_resolution` is exactly the merged map's value. -/
theorem c6_spec_table_precedence :
    ∀ doc : Doc,
      (∀ (f : F) (v : List Char), getF (extract_from_spec_table doc) f = some v →
        getF (mergedOf doc) f = some v) ∧
      (∀ f : F, getF (extract_from_spec_table doc) f = none →
        getF (mergedOf doc) f = getF (titleMapOf doc) f) ∧
      (∀ (url : List Char) (row : ProductRow), parse_product_page doc url = some row →
        row.screen_resolution = getF (mergedOf doc) F.screen_resolution) := by
  intro doc
  have hmerge : ∀ f, getF (mergedOf doc) f =
      (getF (extract_from_spec_table doc) f).or (getF (titleMapOf doc) f) := by
    intro f; cases f <;> rfl
  refine ⟨?_, ?_, ?_⟩
  · intro f v hv; rw [hmerge, hv]; rfl
  · intro f hv; rw [hmerge, hv]; rfl
  · intro url row hrow
    unfold parse_product_page at hrow
    rcases hbm : brandModelOf doc with _ | bm
    · rw [hbm] at hrow; simp at hrow
    · rw [hbm] at hrow
      simp only [Option.some.injEq] at hrow
      rw [← hrow]

/-- Witness for C6: a document whose spec table says `rozdzielczość:
1920x1080` while the title contributes `WUXGA`; the spec-table value appears
in the merged map. -/
def docC6 : Doc :=
  { nameText := some (strL "Asus Vivo WUXGA"),
    tableRows := [(some (strL "rozdzielczość"), [strL "1920x1080"])] }

theorem c6_spec_table_precedence_witness :
    getF (extract_from_spec_table docC6) F.screen_resolution = some (strL "1920x1080") ∧
    getF (titleMapOf docC6) F.screen_resolution = some (strL "WUXGA") ∧
    getF (mergedOf docC6) F.screen_resolution = some (strL "1920x1080") :=
  ⟨by decide, by decide,
   (c6_spec_table_precedence docC6).1 F.screen_resolution (strL "1920x1080") (by decide)⟩

-- ===== Listing-link discovery (src/scraper.py:66-82) =====

/-- Trailing part `.+\.html$` of the product-href pattern: at least one
character before `".html"`, no newline in the matched text (`.` does not
match newline; `$` also matches just before one trailing newline). -/
def hrefTailOk (m : List Char) : Bool :=
  let m2 := if m.getLast? == some (Char.ofNat 10) then m.dropLast else m
  decide (6 ≤ m2.length) && (strL ".html").isSuffixOf m2 &&
    m2.all (fun c => c ≠ Char.ofNat 10)

/-- Model of `re.match(r"^/product/\d+/.+\.html$", href)` (src/scraper.py:73). -/
def productHrefOk (href : List Char) : Bool :=
  (strL "/product/").isPrefixOf href &&
  (let r := href.drop 9
   let ds := r.takeWhile isDigitC
   !ds.isEmpty &&
   (match (r.drop ds.length) with
    | c :: rest => c = '/' && hrefTailOk rest
    | [] => false))

/-- Modelled from the spec: `urllib.parse.urljoin(base_url, href)` (an
external library call) for the root-relative hrefs selected here — the href
is appended to the scheme-and-authority prefix of the base URL. -/
def originOf : List Char → List Char
  | [] => []
  | c :: cs =>
    if (strL "://").isPrefixOf (c :: cs) then
      ':' :: '/' :: '/' :: (cs.drop 2).takeWhile (fun d => d ≠ '/')
    else c :: originOf cs

def urljoinRoot (base href : List Char) : List Char := originOf base ++ href

/-- The candidate product URLs of one listing page in document order: hrefs of
`a[href^="/product/"]` anchors that match the product pattern, joined onto the
base URL (src/scraper.py:70-74). -/
def linksOf (hrefs : List (List Char)) (base : List Char) : List (List Char) :=
  ((hrefs.filter (fun h => (strL "/product/").isPrefixOf h)).filter productHrefOk).map
    (urljoinRoot base)

/-- The de-duplication loop of `discover_product_links` (src/scraper.py:76-81):
keep a URL only at its first occurrence. -/
def uniqFirst (seen : List (List Char)) : List (List Char) → List (List Char)
  | [] => []
  | u :: us => if u ∈ seen then uniqFirst seen us else u :: uniqFirst (u :: seen) us

/-- Model of `discover_product_links(listing_html, base_url)` (src/scraper.py:66-82)
over the anchor hrefs of the page in document order. -/
def discover_product_links (hrefs : List (List Char)) (base : List Char) :
    List (List Char) :=
  uniqFirst [] (linksOf hrefs base)

theorem uniqFirst_mem : ∀ (l seen : List (List Char)) (u : List Char),
    u ∈ uniqFirst seen l ↔ u ∈ l ∧ u ∉ seen := by
  intro l
  induction l with
  | nil => intro seen u; simp [uniqFirst]
  | cons w ws ih =>
    intro seen u
    by_cases hw : w ∈ seen
    · rw [uniqFirst, if_pos hw, ih]
      constructor
      · rintro ⟨h1, h2⟩; exact ⟨List.mem_cons_of_mem w h1, h2⟩
      · rintro ⟨h1, h2⟩
        rcases List.mem_cons.mp h1 with h3 | h3
        · subst h3; exact absurd hw h2
        · exact ⟨h3, h2⟩
    · rw [uniqFirst, if_neg hw]
      constructor
      · intro h1
        rcases List.mem_cons.mp h1 with h3 | h3
        · subst h3; exact ⟨List.mem_cons_self _ _, hw⟩
        · rcases (ih (w :: seen) u).mp h3 with ⟨h4, h5⟩
          refine ⟨List.mem_cons_of_mem w h4, fun h6 => h5 (List.mem_cons_of_mem w h6)⟩
      · rintro ⟨h1, h2⟩
        rcases List.mem_cons.mp h1 with h3 | h3
        · subst h3; exact List.mem_cons_self _ _
        · by_cases h4 : u = w
          · subst h4; exact List.mem_cons_self _ _
          · exact List.mem_cons_of_mem w
              ((ih (w :: seen) u).mpr ⟨h3, by simp [h4, h2]⟩)

theorem uniqFirst_nodup : ∀ (l seen : List (List Char)), (uniqFirst seen l).Nodup := by
  intro l
  induction l with
  | nil => intro seen; simp [uniqFirst]
  | cons w ws ih =>
    intro seen
    by_cases hw : w ∈ seen
    · rw [uniqFirst, if_pos hw]; exact ih seen
    · rw [uniqFirst, if_neg hw]
      refine List.nodup_cons.mpr ⟨?_, ih (w :: seen)⟩
      intro hmem
      exact ((uniqFirst_mem ws (w :: seen) w).mp hmem).2 (List.mem_cons_self _ _)

/-- Index of the first occurrence (0 when absent, as only used on members). -/
def idxOf (u : List Char) : List (List Char) → ℕ
  | [] => 0
  | w :: ws => if u = w then 0 else idxOf u ws + 1

theorem idxOf_cons_self (u : List Char) (ws : List (List Char)) :
    idxOf u (u :: ws) = 0 := by
  simp [idxOf]

theorem idxOf_cons_ne (u w : List Char) (ws : List (List Char)) (h : u ≠ w) :
    idxOf u (w :: ws) = idxOf u ws + 1 := by
  simp [idxOf, h]

theorem uniqFirst_order : ∀ (l seen : List (List Char)) (u v : List Char),
    u ∉ seen → v ∉ seen → u ∈ uniqFirst seen l → v ∈ uniqFirst seen l →
    idxOf u (uniqFirst seen l) < idxOf v (uniqFirst seen l) →
    idxOf u l < idxOf v l := by
  intro l
  induction l with
  | nil => intro seen u v _ _ hu _ _; simp [uniqFirst] at hu
  | cons w ws ih =>
    intro seen u v hus hvs hu hv hlt
    by_cases hw : w ∈ seen
    · rw [uniqFirst, if_pos hw] at hu hv hlt
      have hune : u ≠ w := fun he => hus (he ▸ hw)
      have hvne : v ≠ w := fun he => hvs (he ▸ hw)
      rw [idxOf_cons_ne u w ws hune, idxOf_cons_ne v w ws hvne]
      exact Nat.succ_lt_succ (ih seen u v hus hvs hu hv hlt)
    · rw [uniqFirst, if_neg hw] at hu hv hlt
      by_cases huw : u = w
      · subst huw
        have hvne : v ≠ u := by
          intro he
          subst he
          exact Nat.lt_irrefl _ hlt
        rw [idxOf_cons_self, idxOf_cons_ne v u ws hvne]
        exact Nat.succ_pos _
      · by_cases hvw : v = w
        · subst hvw
          rw [idxOf_cons_self] at hlt
          simp at hlt
        · rcases List.mem_cons.mp hu with h1 | h1
          · exact absurd h1 huw
          rcases List.mem_cons.mp hv with h2 | h2
          · exact absurd h2 hvw
          have hus2 : u ∉ w :: seen := by simp [huw, hus]
          have hvs2 : v ∉ w :: seen := by simp [hvw, hvs]
          rw [idxOf_cons_ne u w _ huw, idxOf_cons_ne v w _ hvw] at hlt
          rw [idxOf_cons_ne u w ws huw, idxOf_cons_ne v w ws hvw]
          exact Nat.succ_lt_succ
            (ih (w :: seen) u v hus2 hvs2 h1 h2 (Nat.succ_lt_succ_iff.mp hlt))

/-- C7: listing-link discovery returns exactly the pattern-matched product
URLs with duplicates removed: the output has no duplicate, contains the same
URLs as the recognized-link sequence, and preserves the order of first
appearance (a URL whose first occurrence among the recognized links is
earlier appears earlier in the output). -/
theorem c7_discover_links_dedup_order :
    ∀ (hrefs : List (List Char)) (base : List Char),
      (discover_product_links hrefs base).Nodup ∧
      (∀ u, u ∈ discover_product_links hrefs base ↔ u ∈ linksOf hrefs base) ∧
      (∀ u v, u ∈ discover_product_links hrefs base →
        v ∈ discover_product_links hrefs base →
        idxOf u (discover_product_links hrefs base) <
          idxOf v (discover_product_links hrefs base) →
        idxOf u (linksOf hrefs base) < idxOf v (linksOf hrefs base)) := by
  intro hrefs base
  refine ⟨uniqFirst_nodup _ _, ?_, ?_⟩
  · intro u
    rw [discover_product_links, uniqFirst_mem]
    simp
  · intro u v hu hv hlt
    exact uniqFirst_order (linksOf hrefs base) [] u v (by simp) (by simp) hu hv hlt

/-- Witness for C7: a listing with a repeated href; the output keeps one copy
of each URL in first-seen order. -/
def hrefsC7 : List (List Char) :=
  [strL "/product/11/a.html", strL "/product/22/b.html", strL "/product/11/a.html"]

theorem c7_discover_links_dedup_order_witness :
    discover_product_links hrefsC7 (strL "https://www.komputronik.pl/") =
      [strL "https://www.komputronik.pl/product/11/a.html",
       strL "https://www.komputronik.pl/product/22/b.html"] ∧
    (discover_product_links hrefsC7 (strL "https://www.komputronik.pl/")).Nodup ∧
    idxOf (strL "https://www.komputronik.pl/product/11/a.html")
        (linksOf hrefsC7 (strL "https://www.komputronik.pl/")) <
      idxOf (strL "https://www.komputronik.pl/product/22/b.html")
        (linksOf hrefsC7 (strL "https://www.komputronik.pl/")) :=
  ⟨by decide,
   (c7_discover_links_dedup_order hrefsC7 (strL "https://www.komputronik.pl/")).1,
   (c7_discover_links_dedup_order hrefsC7 (strL "https://www.komputronik.pl/")).2.2
     (strL "https://www.komputronik.pl/product/11/a.html")
     (strL "https://www.komputronik.pl/product/22/b.html")
     (by decide) (by decide) (by decide)⟩
